import Mathlib

/-!
Verification of the multi-source price aggregation engine of
`btc_terminal.py` (shallow embedding).

The data model and operations below are translated from the Python source:
the shared `PriceStore`, the two WebSocket adapters (`binance_ws` and
`coinbase_ws`), their message-normalization logic, and the reconnect loop
structure. Timestamps (`time.time()`) are threaded explicitly as rational
parameters; prices are rationals; Python dictionaries are functions to
`Option`; a statement that can raise is embedded in `Except`.

The polling (oracle) adapter and the aggregator described in the design
document are not present in this variant of the source; they are modelled
from the specification text and marked as such.
-/

/-- A JSON scalar as it reaches a `float(...)` call: either a value that
`float` converts successfully (a number or numeric string), carrying the
converted rational, or a value on which `float` raises `ValueError`. -/
inductive JVal
  | num (q : ℚ)
  | nonNum
  deriving DecidableEq

/-- Python `float(v)` on a JSON scalar: `some q` on success, `none` when it
raises. -/
def JVal.toFloat : JVal → Option ℚ
  | JVal.num q => some q
  | JVal.nonNum => none

/-- `PriceStore.prices`: the Python dict mapping a key to a
`(price, timestamp)` pair. -/
def PriceStore := String → Option (ℚ × ℚ)

/-- `PriceStore()`: `self.prices = {}`. -/
def PriceStore.empty : PriceStore := fun _ => none

/-- `PriceStore.update(key, price)`: `self.prices[key] = (price, time.time())`,
with the wall-clock reading passed explicitly as `now`. -/
def PriceStore.update (s : PriceStore) (key : String) (price : ℚ) (now : ℚ) :
    PriceStore :=
  fun k => if k = key then some (price, now) else s k

/-- `PriceStore.get(key)`: `self.prices.get(key)`. -/
def PriceStore.get (s : PriceStore) (key : String) : Option (ℚ × ℚ) := s key

/-- `PriceStore.age(key)`: `float("inf")` when the key is absent, otherwise
`time.time() - entry[1]`; infinity is modelled as the top element. -/
def PriceStore.age (s : PriceStore) (key : String) (now : ℚ) : WithTop ℚ :=
  match s key with
  | none => ⊤
  | some entry => ((now - entry.2 : ℚ) : WithTop ℚ)

/-- A finite sequence of `update` calls `(key, (price, now))`, applied to a
store in arrival order. -/
def applyUpdates (s : PriceStore) : List (String × ℚ × ℚ) → PriceStore
  | [] => s
  | u :: us => applyUpdates (s.update u.1 u.2.1 u.2.2) us

theorem applyUpdates_ne_key (us : List (String × ℚ × ℚ)) (s : PriceStore)
    (key : String) (h : ∀ u ∈ us, u.1 ≠ key) :
    (applyUpdates s us).get key = s.get key := by
  induction us generalizing s with
  | nil => rfl
  | cons u us ih =>
    have hu : u.1 ≠ key := h u (List.mem_cons_self u us)
    have hrest : ∀ v ∈ us, v.1 ≠ key := fun v hv => h v (List.mem_cons_of_mem u hv)
    rw [applyUpdates, ih _ hrest]
    simp only [PriceStore.get, PriceStore.update]
    rw [if_neg (fun hk => hu hk.symm)]

theorem applyUpdates_same_key (us : List (ℚ × ℚ)) (s : PriceStore)
    (key : String) (h : us ≠ []) :
    (applyUpdates s (us.map fun u => (key, u))).get key = some (us.getLast h) := by
  induction us generalizing s with
  | nil => exact absurd rfl h
  | cons u us ih =>
    cases us with
    | nil =>
      simp only [List.map, applyUpdates, List.getLast]
      simp [PriceStore.get, PriceStore.update]
    | cons v vs =>
      rw [List.map, applyUpdates, ih _ (List.cons_ne_nil v vs)]
      rw [List.getLast_cons (List.cons_ne_nil v vs)]

/-- C1: for every key and every finite sequence of `update(key, price)` calls,
a subsequent `get(key)` returns the `(price, timestamp)` pair written by the
last update in arrival order, for every prior store contents and regardless
of the magnitude ordering of the prices (last-write-wins). -/
theorem C1_last_write_wins (s : PriceStore) (key : String)
    (us : List (ℚ × ℚ)) (h : us ≠ []) :
    (applyUpdates s (us.map fun u => (key, u))).get key = some (us.getLast h) :=
  applyUpdates_same_key us s key h

theorem C1_last_write_wins_witness :
    ([((100 : ℚ), (1 : ℚ)), (7, 2), (55, 3)] : List (ℚ × ℚ)) ≠ [] ∧
    (applyUpdates PriceStore.empty
        ([((100 : ℚ), (1 : ℚ)), (7, 2), (55, 3)].map fun u => ("binance_BTC", u))).get
        "binance_BTC" = some (55, 3) := by
  refine ⟨by simp, ?_⟩
  rw [C1_last_write_wins PriceStore.empty "binance_BTC"
    [((100 : ℚ), (1 : ℚ)), (7, 2), (55, 3)] (by simp)]
  rfl

/-- C5: a key never written returns absence from `get` and an infinite `age`
(never a zero or default price), while for a written key `age(key, now)` is
exactly `now` minus the stored `observedAt`; so absence is always
distinguishable from a stale entry. -/
theorem C5_absent_vs_stale (us : List (String × ℚ × ℚ)) (key : String)
    (now : ℚ) (h : ∀ u ∈ us, u.1 ≠ key) :
    ((applyUpdates PriceStore.empty us).get key = none ∧
      (applyUpdates PriceStore.empty us).age key now = ⊤) ∧
    (∀ s : PriceStore, ∀ p t : ℚ, s.get key = some (p, t) →
      s.age key now = ((now - t : ℚ) : WithTop ℚ)) := by
  constructor
  · have hg : (applyUpdates PriceStore.empty us).get key = none :=
      applyUpdates_ne_key us PriceStore.empty key h
    refine ⟨hg, ?_⟩
    unfold PriceStore.age
    rw [show (applyUpdates PriceStore.empty us) key = none from hg]
  · intro s p t hs
    unfold PriceStore.age
    rw [show s key = some (p, t) from hs]

theorem C5_absent_vs_stale_witness :
    (∀ u ∈ ([("coinbase_BTC_usd", (9 : ℚ), (1 : ℚ))] : List (String × ℚ × ℚ)),
      u.1 ≠ "binance_BTC") ∧
    (applyUpdates PriceStore.empty [("coinbase_BTC_usd", (9 : ℚ), (1 : ℚ))]).get
      "binance_BTC" = none ∧
    (applyUpdates PriceStore.empty [("coinbase_BTC_usd", (9 : ℚ), (1 : ℚ))]).age
      "binance_BTC" 5 = ⊤ ∧
    (PriceStore.empty.update "binance_BTC" 9 1).age "binance_BTC" 5 =
      ((4 : ℚ) : WithTop ℚ) := by
  have hne : ∀ u ∈ ([("coinbase_BTC_usd", (9 : ℚ), (1 : ℚ))] : List (String × ℚ × ℚ)),
      u.1 ≠ "binance_BTC" := by
    intro u hu
    simp only [List.mem_singleton] at hu
    rw [hu]
    decide
  have h := C5_absent_vs_stale [("coinbase_BTC_usd", (9 : ℚ), (1 : ℚ))]
    "binance_BTC" 5 hne
  refine ⟨hne, h.1.1, h.1.2, ?_⟩
  have h4 := h.2 (PriceStore.empty.update "binance_BTC" 9 1) 9 1 (by rfl)
  rw [h4]
  norm_num

/-- `ASSETS = ["BTC", "ETH", "SOL", "XRP"]`. -/
def ASSETS : List String := ["BTC", "ETH", "SOL", "XRP"]

/-- `BINANCE_SYMBOLS` as an association list (asset, stream symbol). -/
def BINANCE_SYMBOLS : List (String × String) :=
  [("BTC", "btcusdt"), ("ETH", "ethusdt"), ("SOL", "solusdt"), ("XRP", "xrpusdt")]

/-- `sym_to_asset = {v: k for k, v in BINANCE_SYMBOLS.items()}` followed by
`.get(symbol)`. -/
def sym_to_asset (symbol : String) : Option String :=
  (BINANCE_SYMBOLS.find? (fun kv => kv.2 == symbol)).map Prod.fst

/-- `COINBASE_PRODUCTS` as an association list (product id, asset). -/
def COINBASE_PRODUCTS : List (String × String) :=
  [("BTC-USD", "BTC"), ("BTC-USDT", "BTC"),
   ("ETH-USD", "ETH"), ("ETH-USDT", "ETH"),
   ("SOL-USD", "SOL"), ("SOL-USDT", "SOL"),
   ("XRP-USD", "XRP"), ("XRP-USDT", "XRP")]

/-- `COINBASE_PRODUCTS.get(product)`. -/
def coinbase_product_asset (product : String) : Option String :=
  (COINBASE_PRODUCTS.find? (fun kv => kv.1 == product)).map Prod.snd

/-- Python `str.lower` on one ASCII character (the character-level step of
`"...".lower()`). -/
def lowerChar (c : Char) : Char :=
  if 65 ≤ c.toNat ∧ c.toNat ≤ 90 then Char.ofNat (c.toNat + 32) else c

/-- Python `"...".lower()`, as a map over the string's characters. -/
def lowerStr (s : String) : String := ⟨s.data.map lowerChar⟩

/-- Python `s.endswith(t)`: `t` equals the final `len(t)` characters of `s`. -/
def strEndsWith (s t : String) : Bool :=
  decide (t.data.length ≤ s.data.length) &&
    decide (s.data.drop (s.data.length - t.data.length) = t.data)

/-- The fields of a Binance payload object that `binance_ws` reads:
`payload.get("s", "")` (a string field, absent allowed) and `payload["p"]`
(absent raises `KeyError`; a non-numeric value makes `float` raise). -/
structure BinancePayload where
  s : Option String
  p : Option JVal
  deriving DecidableEq

/-- A decoded top-level Binance combined-stream object: an optional nested
`"data"` object plus the top-level object's own payload fields, so that
`payload = data.get("data", data)`. -/
structure BinanceEnvelope where
  data : Option BinancePayload
  top : BinancePayload
  deriving DecidableEq

/-- One iteration of the `binance_ws` message-loop body on a successfully
`json.loads`-decoded message:
`payload = data.get("data", data)`; `symbol = payload.get("s", "").lower()`;
`asset = sym_to_asset.get(symbol)`;
`if asset: store.update("binance_" + asset, float(payload["p"]))`.
`Except.error ()` marks an exception escaping the loop body (to the outer
`except` of the `while True`), `Except.ok none` a message producing no
update, and `Except.ok (some (key, price))` a `store.update` call. -/
def binance_handle (m : BinanceEnvelope) : Except Unit (Option (String × ℚ)) :=
  let payload := m.data.getD m.top
  let symbol := lowerStr (payload.s.getD "")
  match sym_to_asset symbol with
  | none => Except.ok none
  | some asset =>
    match payload.p with
    | none => Except.error ()
    | some v =>
      match v.toFloat with
      | none => Except.error ()
      | some q => Except.ok (some ("binance_" ++ asset, q))

/-- The fields of a Coinbase ticker message that `coinbase_ws` reads:
`data.get("type")`, `data.get("product_id", "")`, `data.get("best_bid", 0)`,
`data.get("best_ask", 0)` and `data["price"]`. -/
structure CoinbaseMsg where
  type : Option String
  product_id : Option String
  best_bid : Option JVal
  best_ask : Option JVal
  price : Option JVal
  deriving DecidableEq

/-- One iteration of the `coinbase_ws` message-loop body on a successfully
`json.loads`-decoded message:
skip unless `data.get("type") == "ticker"`; `product = data.get("product_id", "")`;
skip unless `COINBASE_PRODUCTS.get(product)` yields an asset;
`suffix = "usd" if product.endswith("-USD") else "usdt"`;
`bid = float(data.get("best_bid", 0))`; `ask = float(data.get("best_ask", 0))`;
`price = (bid + ask) / 2` when both are > 0, else `float(data["price"])`;
`store.update("coinbase_" + asset + "_" + suffix, price)`.
Result encoding as in `binance_handle`. -/
def coinbase_handle (m : CoinbaseMsg) : Except Unit (Option (String × ℚ)) :=
  if m.type ≠ some "ticker" then Except.ok none
  else
    let product := m.product_id.getD ""
    match coinbase_product_asset product with
    | none => Except.ok none
    | some asset =>
      let sfx := if strEndsWith product "-USD" then "usd" else "usdt"
      match (m.best_bid.getD (JVal.num 0)).toFloat with
      | none => Except.error ()
      | some bid =>
        match (m.best_ask.getD (JVal.num 0)).toFloat with
        | none => Except.error ()
        | some ask =>
          if 0 < bid ∧ 0 < ask then
            Except.ok (some ("coinbase_" ++ asset ++ "_" ++ sfx, (bid + ask) / 2))
          else
            match m.price with
            | none => Except.error ()
            | some v =>
              match v.toFloat with
              | none => Except.error ()
              | some p => Except.ok (some ("coinbase_" ++ asset ++ "_" ++ sfx, p))

example :
    binance_handle ⟨none, ⟨some "BTCUSDT", some (JVal.num 42)⟩⟩ =
      Except.ok (some ("binance_BTC", 42)) := by rfl

example :
    binance_handle ⟨some ⟨some "ethusdt", some (JVal.num 3)⟩, ⟨none, none⟩⟩ =
      Except.ok (some ("binance_ETH", 3)) := by rfl

example :
    binance_handle ⟨none, ⟨some "dogeusdt", none⟩⟩ = Except.ok none := by rfl

example :
    coinbase_handle ⟨some "ticker", some "SOL-USDT", some (JVal.num 10),
      some (JVal.num 12), some (JVal.num 99)⟩ =
      Except.ok (some ("coinbase_SOL_usdt", (10 + 12) / 2)) := by rfl

example : ((10 : ℚ) + 12) / 2 = 11 := by norm_num

example :
    coinbase_handle ⟨some "ticker", some "SOL-USD", none, none,
      some (JVal.num 99)⟩ = Except.ok (some ("coinbase_SOL_usd", 99)) := by rfl

example :
    coinbase_handle ⟨some "subscriptions", some "SOL-USD", none, none, none⟩ =
      Except.ok none := by rfl

/-- C4: for a ticker message of a known product, `coinbase_ws` writes the
mid-price `(bid + ask) / 2` when both best bid and best ask are present and
strictly positive, and otherwise writes the reported last-trade `price`
field; the update is routed to a key per quote currency chosen by the
product-identifier suffix (`-USD` versus otherwise), so one asset can
populate two distinct keys. -/
theorem C4_coinbase_mid_or_last (m : CoinbaseMsg) (prod asset : String)
    (htype : m.type = some "ticker")
    (hprod : m.product_id = some prod)
    (hasset : coinbase_product_asset prod = some asset) :
    (∀ b a : ℚ, m.best_bid = some (JVal.num b) → m.best_ask = some (JVal.num a) →
      0 < b → 0 < a →
      coinbase_handle m = Except.ok (some
        ("coinbase_" ++ asset ++ "_" ++
          (if strEndsWith prod "-USD" then "usd" else "usdt"), (b + a) / 2))) ∧
    (∀ b a p : ℚ, (m.best_bid.getD (JVal.num 0)).toFloat = some b →
      (m.best_ask.getD (JVal.num 0)).toFloat = some a →
      ¬ (0 < b ∧ 0 < a) → m.price = some (JVal.num p) →
      coinbase_handle m = Except.ok (some
        ("coinbase_" ++ asset ++ "_" ++
          (if strEndsWith prod "-USD" then "usd" else "usdt"), p))) ∧
    coinbase_handle ⟨some "ticker", some "BTC-USD", none, none, some (JVal.num 5)⟩ =
      Except.ok (some ("coinbase_BTC_usd", 5)) ∧
    coinbase_handle ⟨some "ticker", some "BTC-USDT", none, none, some (JVal.num 5)⟩ =
      Except.ok (some ("coinbase_BTC_usdt", 5)) ∧
    ("coinbase_BTC_usd" : String) ≠ "coinbase_BTC_usdt" := by
  refine ⟨?_, ?_, by rfl, by rfl, by decide⟩
  · intro b a hb ha hbpos hapos
    unfold coinbase_handle
    rw [if_neg (by rw [htype]; simp)]
    simp only [hprod, Option.getD_some, hasset, hb, ha, JVal.toFloat]
    rw [if_pos ⟨hbpos, hapos⟩]
  · intro b a p hb ha hnpos hp
    unfold coinbase_handle
    rw [if_neg (by rw [htype]; simp)]
    simp only [hprod, Option.getD_some, hasset, hb, ha, hp]
    rw [if_neg hnpos]
    rfl

theorem C4_coinbase_mid_or_last_witness :
    coinbase_handle ⟨some "ticker", some "ETH-USD", some (JVal.num 10),
        some (JVal.num 12), some (JVal.num 5)⟩ =
      Except.ok (some ("coinbase_ETH_usd", (10 + 12) / 2)) ∧
    coinbase_handle ⟨some "ticker", some "ETH-USDT", none, some (JVal.num 0),
        some (JVal.num 7)⟩ =
      Except.ok (some ("coinbase_ETH_usdt", 7)) := by
  have h1 := C4_coinbase_mid_or_last
    ⟨some "ticker", some "ETH-USD", some (JVal.num 10), some (JVal.num 12),
      some (JVal.num 5)⟩ "ETH-USD" "ETH" rfl rfl rfl
  have h2 := C4_coinbase_mid_or_last
    ⟨some "ticker", some "ETH-USDT", none, some (JVal.num 0), some (JVal.num 7)⟩
    "ETH-USDT" "ETH" rfl rfl rfl
  exact ⟨h1.1 10 12 rfl rfl (by decide) (by decide),
    h2.2.1 0 0 7 rfl rfl (by decide) rfl⟩

/-- C2 fails on this source: `binance_ws` calls `store.update` with
`float(payload["p"])` unconditionally, with no positivity check, so a
message carrying the price `-1` for a known symbol is written to the store
and a subsequent `get` returns a non-positive price. -/
theorem C2_counterexample :
    binance_handle ⟨none, ⟨some "btcusdt", some (JVal.num (-1))⟩⟩ =
      Except.ok (some ("binance_BTC", -1)) ∧
    (PriceStore.empty.update "binance_BTC" (-1) 0).get "binance_BTC" =
      some (-1, 0) ∧
    ((-1 : ℚ) ≤ 0) := by
  refine ⟨by rfl, by rfl, by decide⟩

/-- C2 amended: the adapters pass every successfully decoded price to
`store.update` with no sign filter. A Binance message with a routed symbol
writes `float(payload["p"])` whatever its sign; the Coinbase fallback
branch writes the `price` field whatever its sign; only the Coinbase
mid-price branch, when taken (bid and ask both > 0), necessarily writes a
strictly positive price. Stored prices are therefore positive only insofar
as the feeds deliver positive values. -/
theorem C2_amended_no_sign_filter :
    (∀ (m : BinanceEnvelope) (asset : String) (q : ℚ),
      sym_to_asset (lowerStr ((m.data.getD m.top).s.getD "")) = some asset →
      (m.data.getD m.top).p = some (JVal.num q) →
      binance_handle m = Except.ok (some ("binance_" ++ asset, q))) ∧
    (∀ (m : CoinbaseMsg) (prod asset : String) (b a p : ℚ),
      m.type = some "ticker" → m.product_id = some prod →
      coinbase_product_asset prod = some asset →
      (m.best_bid.getD (JVal.num 0)).toFloat = some b →
      (m.best_ask.getD (JVal.num 0)).toFloat = some a →
      ¬ (0 < b ∧ 0 < a) → m.price = some (JVal.num p) →
      coinbase_handle m = Except.ok (some
        ("coinbase_" ++ asset ++ "_" ++
          (if strEndsWith prod "-USD" then "usd" else "usdt"), p))) ∧
    (∀ b a : ℚ, 0 < b → 0 < a → 0 < (b + a) / 2) := by
  refine ⟨?_, ?_, ?_⟩
  · intro m asset q hsym hp
    unfold binance_handle
    simp only [hsym, hp, JVal.toFloat]
  · intro m prod asset b a p htype hprod hasset hb ha hnpos hp
    unfold coinbase_handle
    rw [if_neg (by rw [htype]; simp)]
    simp only [hprod, Option.getD_some, hasset, hb, ha, hp]
    rw [if_neg hnpos]
    rfl
  · intro b a hb ha
    positivity

theorem C2_amended_no_sign_filter_witness :
    binance_handle ⟨none, ⟨some "btcusdt", some (JVal.num (-1))⟩⟩ =
      Except.ok (some ("binance_" ++ "BTC", -1)) ∧
    coinbase_handle ⟨some "ticker", some "XRP-USDT", none, none,
        some (JVal.num (-2))⟩ =
      Except.ok (some ("coinbase_" ++ "XRP" ++ "_" ++
        (if strEndsWith "XRP-USDT" "-USD" then "usd" else "usdt"), -2)) ∧
    (0 : ℚ) < (3 + 5) / 2 := by
  refine ⟨?_, ?_, ?_⟩
  · exact C2_amended_no_sign_filter.1 ⟨none, ⟨some "btcusdt", some (JVal.num (-1))⟩⟩
      "BTC" (-1) rfl rfl
  · exact C2_amended_no_sign_filter.2.1
      ⟨some "ticker", some "XRP-USDT", none, none, some (JVal.num (-2))⟩
      "XRP-USDT" "XRP" 0 0 (-2) rfl rfl rfl rfl rfl (by decide) rfl
  · exact C2_amended_no_sign_filter.2.2 3 5 (by decide) (by decide)

/-- C10 fails as stated: a ticker message whose `best_bid` field is entirely
absent can still raise — here `best_ask` is present but non-numeric, so
`float(data.get("best_ask", 0))` raises even though the `price` field is
present and numeric. -/
theorem C10_counterexample :
    (⟨some "ticker", some "BTC-USD", none, some JVal.nonNum,
        some (JVal.num 5)⟩ : CoinbaseMsg).best_bid = none ∧
    (⟨some "ticker", some "BTC-USD", none, some JVal.nonNum,
        some (JVal.num 5)⟩ : CoinbaseMsg).price = some (JVal.num 5) ∧
    coinbase_handle ⟨some "ticker", some "BTC-USD", none, some JVal.nonNum,
        some (JVal.num 5)⟩ = Except.error () :=
  ⟨rfl, rfl, rfl⟩

/-- C10 amended: in a ticker message with a known product, each of
`best_bid`/`best_ask` that is entirely absent defaults to 0 under
`data.get(..., 0)` and so cannot itself raise; when both fields are
absent-or-numeric, with values failing the strict-positivity test, the
adapter falls back to the last-trade `price` field, and the message then
fails exactly when `price` is missing or non-numeric. (The original claim
is too strong only because a present-but-non-numeric companion field
still raises.) -/
theorem C10_amended_missing_bid_ask (m : CoinbaseMsg) (prod asset : String)
    (b a : ℚ)
    (htype : m.type = some "ticker")
    (hprod : m.product_id = some prod)
    (hasset : coinbase_product_asset prod = some asset)
    (hb : (m.best_bid.getD (JVal.num 0)).toFloat = some b)
    (ha : (m.best_ask.getD (JVal.num 0)).toFloat = some a)
    (hnpos : ¬ (0 < b ∧ 0 < a)) :
    ((Option.getD (none : Option JVal) (JVal.num 0)).toFloat = some 0) ∧
    (m.price = none → coinbase_handle m = Except.error ()) ∧
    (m.price = some JVal.nonNum → coinbase_handle m = Except.error ()) ∧
    (∀ p : ℚ, m.price = some (JVal.num p) →
      coinbase_handle m = Except.ok (some
        ("coinbase_" ++ asset ++ "_" ++
          (if strEndsWith prod "-USD" then "usd" else "usdt"), p))) := by
  refine ⟨rfl, ?_, ?_, ?_⟩
  · intro hp
    unfold coinbase_handle
    rw [if_neg (by rw [htype]; simp)]
    simp only [hprod, Option.getD_some, hasset, hb, ha, hp]
    rw [if_neg hnpos]
  · intro hp
    unfold coinbase_handle
    rw [if_neg (by rw [htype]; simp)]
    simp only [hprod, Option.getD_some, hasset, hb, ha, hp]
    rw [if_neg hnpos]
    rfl
  · intro p hp
    unfold coinbase_handle
    rw [if_neg (by rw [htype]; simp)]
    simp only [hprod, Option.getD_some, hasset, hb, ha, hp]
    rw [if_neg hnpos]
    rfl

theorem C10_amended_missing_bid_ask_witness :
    coinbase_handle ⟨some "ticker", some "SOL-USD", none, none, none⟩ =
      Except.error () ∧
    coinbase_handle ⟨some "ticker", some "SOL-USD", none, none,
        some JVal.nonNum⟩ = Except.error () ∧
    coinbase_handle ⟨some "ticker", some "SOL-USD", none, none,
        some (JVal.num 144)⟩ =
      Except.ok (some ("coinbase_" ++ "SOL" ++ "_" ++
        (if strEndsWith "SOL-USD" "-USD" then "usd" else "usdt"), 144)) := by
  refine ⟨?_, ?_, ?_⟩
  · exact (C10_amended_missing_bid_ask
      ⟨some "ticker", some "SOL-USD", none, none, none⟩
      "SOL-USD" "SOL" 0 0 rfl rfl rfl rfl rfl (by decide)).2.1 rfl
  · exact (C10_amended_missing_bid_ask
      ⟨some "ticker", some "SOL-USD", none, none, some JVal.nonNum⟩
      "SOL-USD" "SOL" 0 0 rfl rfl rfl rfl rfl (by decide)).2.2.1 rfl
  · exact (C10_amended_missing_bid_ask
      ⟨some "ticker", some "SOL-USD", none, none, some (JVal.num 144)⟩
      "SOL-USD" "SOL" 0 0 rfl rfl rfl rfl rfl (by decide)).2.2.2 144 rfl

/-- The 12 store keys the two adapters can ever write. -/
def ADAPTER_KEYS : List String :=
  ["binance_BTC", "binance_ETH", "binance_SOL", "binance_XRP",
   "coinbase_BTC_usd", "coinbase_BTC_usdt",
   "coinbase_ETH_usd", "coinbase_ETH_usdt",
   "coinbase_SOL_usd", "coinbase_SOL_usdt",
   "coinbase_XRP_usd", "coinbase_XRP_usdt"]

theorem sym_to_asset_mem (s a : String) (h : sym_to_asset s = some a) :
    a ∈ ASSETS := by
  unfold sym_to_asset at h
  cases hf : BINANCE_SYMBOLS.find? (fun kv => kv.2 == s) with
  | none => rw [hf] at h; simp at h
  | some kv =>
    rw [hf, Option.map_some'] at h
    have h2 : kv.1 = a := Option.some.inj h
    have hm : kv ∈ BINANCE_SYMBOLS := List.mem_of_find?_eq_some hf
    rw [← h2]
    fin_cases hm <;> decide
  
theorem coinbase_product_asset_mem (s a : String)
    (h : coinbase_product_asset s = some a) : a ∈ ASSETS := by
  unfold coinbase_product_asset at h
  cases hf : COINBASE_PRODUCTS.find? (fun kv => kv.1 == s) with
  | none => rw [hf] at h; simp at h
  | some kv =>
    rw [hf, Option.map_some'] at h
    have h2 : kv.2 = a := Option.some.inj h
    have hm : kv ∈ COINBASE_PRODUCTS := List.mem_of_find?_eq_some hf
    rw [← h2]
    fin_cases hm <;> decide

theorem binance_handle_write_key (m : BinanceEnvelope) (k : String) (q : ℚ)
    (h : binance_handle m = Except.ok (some (k, q))) :
    ∃ asset, asset ∈ ASSETS ∧ k = "binance_" ++ asset := by
  simp only [binance_handle] at h
  cases hs : sym_to_asset (lowerStr ((m.data.getD m.top).s.getD "")) with
  | none => rw [hs] at h; simp at h
  | some asset =>
    rw [hs] at h
    dsimp only [] at h
    cases hp : (m.data.getD m.top).p with
    | none => rw [hp] at h; simp at h
    | some v =>
      rw [hp] at h
      dsimp only [] at h
      cases hv : v.toFloat with
      | none => rw [hv] at h; simp at h
      | some q2 =>
        rw [hv] at h
        dsimp only [] at h
        simp only [Except.ok.injEq, Option.some.injEq, Prod.mk.injEq] at h
        exact ⟨asset, sym_to_asset_mem _ _ hs, h.1.symm⟩

theorem coinbase_handle_write_key (m : CoinbaseMsg) (k : String) (q : ℚ)
    (h : coinbase_handle m = Except.ok (some (k, q))) :
    ∃ asset, asset ∈ ASSETS ∧
      (k = "coinbase_" ++ asset ++ "_" ++ "usd" ∨
        k = "coinbase_" ++ asset ++ "_" ++ "usdt") := by
  simp only [coinbase_handle] at h
  by_cases ht : m.type = some "ticker"
  · rw [if_neg (by rw [ht]; simp)] at h
    cases ha : coinbase_product_asset (m.product_id.getD "") with
    | none => rw [ha] at h; simp at h
    | some asset =>
      rw [ha] at h
      dsimp only [] at h
      refine ⟨asset, coinbase_product_asset_mem _ _ ha, ?_⟩
      cases hb : ((m.best_bid.getD (JVal.num 0)).toFloat) with
      | none => rw [hb] at h; simp at h
      | some bid =>
        rw [hb] at h
        dsimp only [] at h
        cases hk : ((m.best_ask.getD (JVal.num 0)).toFloat) with
        | none => rw [hk] at h; simp at h
        | some ask =>
          rw [hk] at h
          dsimp only [] at h
          by_cases hpos : 0 < bid ∧ 0 < ask
          · rw [if_pos hpos] at h
            simp only [Except.ok.injEq, Option.some.injEq, Prod.mk.injEq] at h
            cases hsfx : strEndsWith (m.product_id.getD "") "-USD" with
            | true => left; rw [← h.1, hsfx]; rfl
            | false => right; rw [← h.1, hsfx]; rfl
          · rw [if_neg hpos] at h
            cases hp : m.price with
            | none => rw [hp] at h; simp at h
            | some v =>
              rw [hp] at h
              dsimp only [] at h
              cases hv : v.toFloat with
              | none => rw [hv] at h; simp at h
              | some p =>
                rw [hv] at h
                dsimp only [] at h
                simp only [Except.ok.injEq, Option.some.injEq, Prod.mk.injEq] at h
                cases hsfx : strEndsWith (m.product_id.getD "") "-USD" with
                | true => left; rw [← h.1, hsfx]; rfl
                | false => right; rw [← h.1, hsfx]; rfl
  · rw [if_pos ht] at h
    simp at h

/-- C9: every key either adapter ever passes to `store.update` lies in the
fixed 12-element set `ADAPTER_KEYS`; a message whose symbol or product
identifier maps to no configured asset produces no write, so an adversarial
feed cannot create new store keys. -/
theorem C9_bounded_keys (k : String) (q : ℚ)
    (h : (∃ m : BinanceEnvelope, binance_handle m = Except.ok (some (k, q))) ∨
      (∃ m : CoinbaseMsg, coinbase_handle m = Except.ok (some (k, q)))) :
    k ∈ ADAPTER_KEYS := by
  rcases h with ⟨m, hm⟩ | ⟨m, hm⟩
  · obtain ⟨asset, hmem, hk⟩ := binance_handle_write_key m k q hm
    subst hk
    fin_cases hmem <;> decide
  · obtain ⟨asset, hmem, hk⟩ := coinbase_handle_write_key m k q hm
    rcases hk with hk | hk <;> subst hk <;> fin_cases hmem <;> decide

theorem C9_bounded_keys_witness :
    ((∃ m : BinanceEnvelope,
        binance_handle m = Except.ok (some ("binance_SOL", (3 : ℚ)))) ∨
      (∃ m : CoinbaseMsg,
        coinbase_handle m = Except.ok (some ("binance_SOL", (3 : ℚ))))) ∧
    "binance_SOL" ∈ ADAPTER_KEYS := by
  have hex : (∃ m : BinanceEnvelope,
      binance_handle m = Except.ok (some ("binance_SOL", (3 : ℚ)))) ∨
      (∃ m : CoinbaseMsg,
        coinbase_handle m = Except.ok (some ("binance_SOL", (3 : ℚ)))) :=
    Or.inl ⟨⟨none, ⟨some "solusdt", some (JVal.num 3)⟩⟩, rfl⟩
  exact ⟨hex, C9_bounded_keys "binance_SOL" 3 hex⟩

/-- The fixed reconnect delay: `await asyncio.sleep(3)` in both adapters'
`except` branches. -/
def RETRY_DELAY : ℕ := 3

/-- The phase of one adapter's `while True` loop: about to call
`websockets.connect` (connecting), inside the `async for` message loop
(connected), or inside `asyncio.sleep` with `r` seconds remaining
(sleeping, entered from the `except Exception` handler). -/
inductive AState
  | connecting
  | connected
  | sleeping (r : ℕ)
  deriving DecidableEq

/-- An event delivered to one adapter task: the connect call returning or
raising, one inbound frame (`none` when `json.loads` itself raises),
a transport error (socket closed, timeout), or one second of sleep
elapsing. -/
inductive AEvent (M : Type)
  | connectOk
  | connErr
  | recv (raw : Option M)
  | tick

/-- One scheduler step of an adapter task with message-handler `handle`
(the loop body of `binance_ws` / `coinbase_ws`): any exception —
transport error, envelope decode failure, or an exception escaping the
message handler — lands in the `except` branch, which sleeps
`RETRY_DELAY` seconds and then loops back to connecting, unconditionally.
Returns the successor phase and the `store.update` call, if any. -/
def adapter_step {M : Type} (handle : M → Except Unit (Option (String × ℚ)))
    (s : AState) (e : AEvent M) : AState × Option (String × ℚ) :=
  match s, e with
  | AState.connecting, AEvent.connectOk => (AState.connected, none)
  | AState.connecting, AEvent.connErr => (AState.sleeping RETRY_DELAY, none)
  | AState.connected, AEvent.connErr => (AState.sleeping RETRY_DELAY, none)
  | AState.connected, AEvent.recv none => (AState.sleeping RETRY_DELAY, none)
  | AState.connected, AEvent.recv (some m) =>
    match handle m with
    | Except.error _ => (AState.sleeping RETRY_DELAY, none)
    | Except.ok w => (AState.connected, w)
  | AState.sleeping (r + 1), AEvent.tick =>
    (if r = 0 then AState.connecting else AState.sleeping r, none)
  | AState.sleeping 0, AEvent.tick => (AState.connecting, none)
  | s, _ => (s, none)

/-- Run `n` sleep ticks of an adapter task. -/
def run_ticks {M : Type} (handle : M → Except Unit (Option (String × ℚ))) :
    ℕ → AState → AState
  | 0, s => s
  | n + 1, s => run_ticks handle n (adapter_step handle s AEvent.tick).1

/-- One failure-and-recovery round: an error, the full fixed sleep, and a
successful reconnect. -/
def fail_cycle {M : Type} (handle : M → Except Unit (Option (String × ℚ)))
    (s : AState) : AState :=
  (adapter_step handle
    (run_ticks handle RETRY_DELAY (adapter_step handle s AEvent.connErr).1)
    AEvent.connectOk).1

/-- The whole process: the two adapter tasks plus the shared store; the
renderer only reads. -/
structure SysState where
  binance : AState
  coinbase : AState
  store : PriceStore

/-- A scheduler label: which task runs, the event it processes, and the
`time.time()` reading an ensuing `store.update` would take. -/
inductive SysLabel
  | binanceEv (e : AEvent BinanceEnvelope) (now : ℚ)
  | coinbaseEv (e : AEvent CoinbaseMsg) (now : ℚ)

/-- Apply an adapter's optional `store.update` call to the store. -/
def apply_write (st : PriceStore) (w : Option (String × ℚ)) (now : ℚ) :
    PriceStore :=
  match w with
  | none => st
  | some kp => st.update kp.1 kp.2 now

/-- One interleaving step of the whole process: exactly one task advances;
the only shared state is the store. -/
def sys_step (s : SysState) : SysLabel → SysState
  | SysLabel.binanceEv e now =>
    let r := adapter_step binance_handle s.binance e
    ⟨r.1, s.coinbase, apply_write s.store r.2 now⟩
  | SysLabel.coinbaseEv e now =>
    let r := adapter_step coinbase_handle s.coinbase e
    ⟨s.binance, r.1, apply_write s.store r.2 now⟩

/-- Run a list of scheduler labels in order. -/
def sys_run (s : SysState) : List SysLabel → SysState
  | [] => s
  | l :: ls => sys_run (sys_step s l) ls

example :
    run_ticks binance_handle RETRY_DELAY (AState.sleeping RETRY_DELAY) =
      AState.connecting := by rfl

example :
    fail_cycle binance_handle AState.connected = AState.connected := by rfl

theorem adapter_step_ok {M : Type}
    (handle : M → Except Unit (Option (String × ℚ))) (m : M)
    (w : Option (String × ℚ)) (h : handle m = Except.ok w) :
    adapter_step handle AState.connected (AEvent.recv (some m)) =
      (AState.connected, w) := by
  simp only [adapter_step, h]

theorem adapter_step_err {M : Type}
    (handle : M → Except Unit (Option (String × ℚ))) (m : M)
    (h : handle m = Except.error ()) :
    adapter_step handle AState.connected (AEvent.recv (some m)) =
      (AState.sleeping RETRY_DELAY, none) := by
  simp only [adapter_step, h]

/-- C3 fails as stated: a single malformed inbound message — here a Binance
trade tick with a known symbol but no price field `"p"` — raises inside the
message loop, which exits the `async with` connection block, so the adapter
tears the connection down and enters the retry sleep rather than skipping
the message and keeping the loop alive. -/
theorem C3_counterexample :
    binance_handle ⟨none, ⟨some "btcusdt", none⟩⟩ = Except.error () ∧
    (adapter_step binance_handle AState.connected
        (AEvent.recv (some ⟨none, ⟨some "btcusdt", none⟩⟩))).1 =
      AState.sleeping RETRY_DELAY ∧
    AState.sleeping RETRY_DELAY ≠ AState.connected :=
  ⟨rfl, rfl, by decide⟩

/-- C3 amended: a message that merely fails routing — an unknown or missing
symbol on Binance, a non-ticker type on Coinbase — is skipped with the
connection still alive; but a routed message whose price extraction raises
(missing `"p"`, or a non-numeric price) is treated exactly like a
connection-level error (closed socket, envelope decode failure): the
connection is torn down and the adapter enters the fixed retry sleep. -/
theorem C3_amended_malformed_disconnects :
    (∀ m : BinanceEnvelope,
      sym_to_asset (lowerStr ((m.data.getD m.top).s.getD "")) = none →
      binance_handle m = Except.ok none ∧
      (adapter_step binance_handle AState.connected (AEvent.recv (some m))).1 =
        AState.connected) ∧
    (∀ m : CoinbaseMsg, m.type ≠ some "ticker" →
      coinbase_handle m = Except.ok none ∧
      (adapter_step coinbase_handle AState.connected (AEvent.recv (some m))).1 =
        AState.connected) ∧
    (∀ m : BinanceEnvelope, ∀ a : String,
      sym_to_asset (lowerStr ((m.data.getD m.top).s.getD "")) = some a →
      ((m.data.getD m.top).p = none ∨ (m.data.getD m.top).p = some JVal.nonNum) →
      binance_handle m = Except.error ()) ∧
    (∀ m : BinanceEnvelope, binance_handle m = Except.error () →
      (adapter_step binance_handle AState.connected (AEvent.recv (some m))).1 =
        AState.sleeping RETRY_DELAY) ∧
    (∀ m : CoinbaseMsg, coinbase_handle m = Except.error () →
      (adapter_step coinbase_handle AState.connected (AEvent.recv (some m))).1 =
        AState.sleeping RETRY_DELAY) ∧
    (adapter_step binance_handle AState.connected
      (AEvent.recv none)).1 = AState.sleeping RETRY_DELAY ∧
    (adapter_step binance_handle AState.connected AEvent.connErr).1 =
      AState.sleeping RETRY_DELAY := by
  refine ⟨?_, ?_, ?_, ?_, ?_, rfl, rfl⟩
  · intro m hs
    have h1 : binance_handle m = Except.ok none := by
      simp only [binance_handle, hs]
    exact ⟨h1, by rw [adapter_step_ok binance_handle m none h1]⟩
  · intro m ht
    have h1 : coinbase_handle m = Except.ok none := by
      unfold coinbase_handle
      rw [if_pos ht]
    exact ⟨h1, by rw [adapter_step_ok coinbase_handle m none h1]⟩
  · intro m a hs hp
    rcases hp with hp | hp
    · simp only [binance_handle, hs, hp]
    · simp only [binance_handle, hs, hp, JVal.toFloat]
  · intro m hm
    rw [adapter_step_err binance_handle m hm]
  · intro m hm
    rw [adapter_step_err coinbase_handle m hm]

theorem C3_amended_malformed_disconnects_witness :
    binance_handle ⟨none, ⟨some "dogeusdt", some (JVal.num 1)⟩⟩ =
      Except.ok none ∧
    binance_handle ⟨none, ⟨some "ethusdt", some JVal.nonNum⟩⟩ =
      Except.error () ∧
    (adapter_step binance_handle AState.connected
        (AEvent.recv (some ⟨none, ⟨some "ethusdt", some JVal.nonNum⟩⟩))).1 =
      AState.sleeping RETRY_DELAY := by
  have h1 := C3_amended_malformed_disconnects.1
    ⟨none, ⟨some "dogeusdt", some (JVal.num 1)⟩⟩ rfl
  have h2 := C3_amended_malformed_disconnects.2.2.1
    ⟨none, ⟨some "ethusdt", some JVal.nonNum⟩⟩ "ETH" rfl (Or.inr rfl)
  have h3 := C3_amended_malformed_disconnects.2.2.2.1
    ⟨none, ⟨some "ethusdt", some JVal.nonNum⟩⟩ h2
  exact ⟨h1.1, h2, h3⟩

/-- C6: every adapter error leads to a fixed `RETRY_DELAY = 3` second sleep
followed by an unconditional reconnect attempt, with no backoff and no
retry budget (any number of failure cycles returns the adapter to
connected); one task's step never touches the other task's phase, the
Coinbase task keeps writing to the store whatever phase the Binance task is
in, and a sleeping adapter resumes writing after its three ticks and a
reconnect, all without any process-level failure. -/
theorem C6_fixed_retry_and_independence {M : Type}
    (handle : M → Except Unit (Option (String × ℚ))) :
    RETRY_DELAY = 3 ∧
    (adapter_step handle AState.connected AEvent.connErr).1 =
      AState.sleeping RETRY_DELAY ∧
    (adapter_step handle AState.connecting AEvent.connErr).1 =
      AState.sleeping RETRY_DELAY ∧
    (adapter_step handle AState.connected (AEvent.recv none)).1 =
      AState.sleeping RETRY_DELAY ∧
    (∀ m : M, handle m = Except.error () →
      (adapter_step handle AState.connected (AEvent.recv (some m))).1 =
        AState.sleeping RETRY_DELAY) ∧
    run_ticks handle RETRY_DELAY (AState.sleeping RETRY_DELAY) =
      AState.connecting ∧
    (adapter_step handle AState.connecting AEvent.connectOk).1 =
      AState.connected ∧
    (∀ n : ℕ, (fail_cycle handle)^[n] AState.connected = AState.connected) ∧
    (∀ (b c : AState) (st : PriceStore) (e : AEvent CoinbaseMsg) (now : ℚ),
      (sys_step ⟨b, c, st⟩ (SysLabel.coinbaseEv e now)).binance = b ∧
      (sys_step ⟨b, c, st⟩ (SysLabel.coinbaseEv e now)).coinbase =
        (adapter_step coinbase_handle c e).1 ∧
      (sys_step ⟨b, c, st⟩ (SysLabel.coinbaseEv e now)).store =
        apply_write st (adapter_step coinbase_handle c e).2 now) ∧
    (∀ (b c : AState) (st : PriceStore) (e : AEvent BinanceEnvelope) (now : ℚ),
      (sys_step ⟨b, c, st⟩ (SysLabel.binanceEv e now)).coinbase = c ∧
      (sys_step ⟨b, c, st⟩ (SysLabel.binanceEv e now)).binance =
        (adapter_step binance_handle b e).1 ∧
      (sys_step ⟨b, c, st⟩ (SysLabel.binanceEv e now)).store =
        apply_write st (adapter_step binance_handle b e).2 now) ∧
    (∀ (b : AState) (st : PriceStore) (m : CoinbaseMsg) (now : ℚ)
        (k : String) (p : ℚ), coinbase_handle m = Except.ok (some (k, p)) →
      ((sys_step ⟨b, AState.connected, st⟩
          (SysLabel.coinbaseEv (AEvent.recv (some m)) now)).store).get k =
        some (p, now)) ∧
    (∀ (c : AState) (st : PriceStore) (m : BinanceEnvelope) (now : ℚ)
        (k : String) (p : ℚ), binance_handle m = Except.ok (some (k, p)) →
      (sys_run ⟨AState.sleeping RETRY_DELAY, c, st⟩
          [SysLabel.binanceEv AEvent.tick 0, SysLabel.binanceEv AEvent.tick 0,
           SysLabel.binanceEv AEvent.tick 0,
           SysLabel.binanceEv AEvent.connectOk 0,
           SysLabel.binanceEv (AEvent.recv (some m)) now]).binance =
        AState.connected ∧
      (sys_run ⟨AState.sleeping RETRY_DELAY, c, st⟩
          [SysLabel.binanceEv AEvent.tick 0, SysLabel.binanceEv AEvent.tick 0,
           SysLabel.binanceEv AEvent.tick 0,
           SysLabel.binanceEv AEvent.connectOk 0,
           SysLabel.binanceEv (AEvent.recv (some m)) now]).coinbase = c ∧
      ((sys_run ⟨AState.sleeping RETRY_DELAY, c, st⟩
          [SysLabel.binanceEv AEvent.tick 0, SysLabel.binanceEv AEvent.tick 0,
           SysLabel.binanceEv AEvent.tick 0,
           SysLabel.binanceEv AEvent.connectOk 0,
           SysLabel.binanceEv (AEvent.recv (some m)) now]).store).get k =
        some (p, now)) := by
  refine ⟨rfl, rfl, rfl, rfl, ?_, rfl, rfl, ?_, ?_, ?_, ?_, ?_⟩
  · intro m hm
    rw [adapter_step_err handle m hm]
  · intro n
    induction n with
    | zero => rfl
    | succ n ih =>
      rw [Function.iterate_succ_apply,
        show fail_cycle handle AState.connected = AState.connected from rfl, ih]
  · intro b c st e now
    exact ⟨rfl, rfl, rfl⟩
  · intro b c st e now
    exact ⟨rfl, rfl, rfl⟩
  · intro b st m now k p hm
    show (apply_write st
      (adapter_step coinbase_handle AState.connected (AEvent.recv (some m))).2
      now).get k = some (p, now)
    rw [adapter_step_ok coinbase_handle m (some (k, p)) hm]
    simp [apply_write, PriceStore.get, PriceStore.update]
  · intro c st m now k p hm
    have hpre : sys_run ⟨AState.sleeping RETRY_DELAY, c, st⟩
        [SysLabel.binanceEv AEvent.tick 0, SysLabel.binanceEv AEvent.tick 0,
         SysLabel.binanceEv AEvent.tick 0,
         SysLabel.binanceEv AEvent.connectOk 0] =
        ⟨AState.connected, c, st⟩ := rfl
    have hfull : sys_run ⟨AState.sleeping RETRY_DELAY, c, st⟩
        [SysLabel.binanceEv AEvent.tick 0, SysLabel.binanceEv AEvent.tick 0,
         SysLabel.binanceEv AEvent.tick 0, SysLabel.binanceEv AEvent.connectOk 0,
         SysLabel.binanceEv (AEvent.recv (some m)) now] =
        sys_step ⟨AState.connected, c, st⟩
          (SysLabel.binanceEv (AEvent.recv (some m)) now) := by
      show sys_run (sys_step ⟨AState.sleeping RETRY_DELAY, c, st⟩
          (SysLabel.binanceEv AEvent.tick 0))
          [SysLabel.binanceEv AEvent.tick 0, SysLabel.binanceEv AEvent.tick 0,
           SysLabel.binanceEv AEvent.connectOk 0,
           SysLabel.binanceEv (AEvent.recv (some m)) now] = _
      rfl
    rw [hfull]
    have hb := adapter_step_ok binance_handle m (some (k, p)) hm
    refine ⟨?_, rfl, ?_⟩
    · show (adapter_step binance_handle AState.connected
        (AEvent.recv (some m))).1 = AState.connected
      rw [hb]
    · show (apply_write st (adapter_step binance_handle AState.connected
        (AEvent.recv (some m))).2 now).get k = some (p, now)
      rw [hb]
      simp [apply_write, PriceStore.get, PriceStore.update]

theorem C6_fixed_retry_and_independence_witness :
    run_ticks binance_handle RETRY_DELAY (AState.sleeping RETRY_DELAY) =
      AState.connecting ∧
    (fail_cycle binance_handle)^[5] AState.connected = AState.connected ∧
    ((sys_run ⟨AState.sleeping RETRY_DELAY, AState.connected,
        PriceStore.empty⟩
        [SysLabel.binanceEv AEvent.tick 0, SysLabel.binanceEv AEvent.tick 0,
         SysLabel.binanceEv AEvent.tick 0, SysLabel.binanceEv AEvent.connectOk 0,
         SysLabel.binanceEv
           (AEvent.recv (some ⟨none, ⟨some "btcusdt", some (JVal.num 42)⟩⟩))
           7]).store).get "binance_BTC" = some (42, 7) := by
  have h := C6_fixed_retry_and_independence binance_handle
  refine ⟨h.2.2.2.2.2.1, h.2.2.2.2.2.2.2.1 5, ?_⟩
  exact (h.2.2.2.2.2.2.2.2.2.2.2 AState.connected PriceStore.empty
    ⟨none, ⟨some "btcusdt", some (JVal.num 42)⟩⟩ 7 "binance_BTC" 42 rfl).2.2

/-- Modelled from the spec: the polling (oracle) adapter is not present in
this source file; section 4.4 of the design document specifies its decode
contract. Value of one hexadecimal digit character. -/
def hexDigit (c : Char) : Option ℕ :=
  if 48 ≤ c.toNat ∧ c.toNat ≤ 57 then some (c.toNat - 48)
  else if 97 ≤ c.toNat ∧ c.toNat ≤ 102 then some (c.toNat - 87)
  else if 65 ≤ c.toNat ∧ c.toNat ≤ 70 then some (c.toNat - 55)
  else none

/-- Modelled from the spec: big-endian value of a run of hex digits; `none`
if any character is not a hex digit. -/
def parseHexChars (cs : List Char) : Option ℕ :=
  cs.foldl (fun acc c => acc.bind fun n => (hexDigit c).map fun d => 16 * n + d)
    (some 0)

/-- A 32-byte word is 64 hex characters. -/
def ORACLE_WORD_HEX : ℕ := 64

/-- Modelled from the spec: the fixed decimal scale factor 1e8. -/
def ORACLE_SCALE : ℚ := 10 ^ 8

/-- Modelled from the spec: the oracle response is a fixed-width hexadecimal
payload; the adapter extracts the 32-byte word at byte offset `off` (after
the `0x` marker, if present) as a two's-complement 256-bit signed
integer. -/
def oracle_extract_int (payload : String) (off : ℕ) : Option ℤ :=
  let body := if payload.data.take 2 = [Char.ofNat 48, Char.ofNat 120] then
    payload.data.drop 2 else payload.data
  let range := (body.drop (2 * off)).take ORACLE_WORD_HEX
  if range.length = ORACLE_WORD_HEX then
    (parseHexChars range).map fun n =>
      if n < 2 ^ 255 then (n : ℤ) else (n : ℤ) - 2 ^ 256
  else none

/-- Modelled from the spec: a decoded integer ≤ 0 is invalid and is
discarded (not written to the store); otherwise the price is the integer
divided by the fixed scale factor. -/
def oracle_decode_price (payload : String) (off : ℕ) : Option ℚ :=
  match oracle_extract_int payload off with
  | none => none
  | some v => if v ≤ 0 then none else some ((v : ℚ) / ORACLE_SCALE)

set_option maxRecDepth 100000

/-- C7: the oracle decode applied to a hex payload encoding the
two's-complement signed integer 6,500,000,000,000 in its 32-byte word
yields the price 65000 after dividing by the 1e8 scale, and any payload
whose decoded integer is ≤ 0 is discarded — nothing is written. -/
theorem C7_oracle_decode (payload : String) (off : ℕ) (v : ℤ)
    (h : oracle_extract_int payload off = some v) (hv : v ≤ 0) :
    oracle_extract_int
        "0x000000000000000000000000000000000000000000000000000005e96630e800"
        0 = some 6500000000000 ∧
    oracle_decode_price
        "0x000000000000000000000000000000000000000000000000000005e96630e800"
        0 = some 65000 ∧
    oracle_decode_price payload off = none := by
  refine ⟨by rfl, ?_, ?_⟩
  · show oracle_decode_price _ 0 = some 65000
    unfold oracle_decode_price
    rw [show oracle_extract_int
      "0x000000000000000000000000000000000000000000000000000005e96630e800"
      0 = some 6500000000000 from rfl]
    dsimp only []
    rw [if_neg (by decide)]
    norm_num [ORACLE_SCALE]
  · unfold oracle_decode_price
    rw [h]
    dsimp only []
    rw [if_pos hv]

theorem C7_oracle_decode_witness :
    oracle_extract_int
        "0xffffffffffffffffffffffffffffffffffffffffffffffffffffffffffffffff"
        0 = some (-1) ∧
    ((-1 : ℤ) ≤ 0) ∧
    oracle_decode_price
        "0xffffffffffffffffffffffffffffffffffffffffffffffffffffffffffffffff"
        0 = none := by
  refine ⟨by rfl, by decide, ?_⟩
  exact (C7_oracle_decode
    "0xffffffffffffffffffffffffffffffffffffffffffffffffffffffffffffffff"
    0 (-1) (by rfl) (by decide)).2.2

/-- Modelled from the spec: the minimum quorum of present candidate keys for
a grand average (observed threshold 3). -/
def GRAND_QUORUM : ℕ := 3

/-- Modelled from the spec: the Aggregator is not present in this source
file; section 4.5 specifies the grand average: over a fixed candidate set
of keys, produced only when at least `GRAND_QUORUM` candidates are present
in the snapshot, as the unweighted arithmetic mean of the present values;
otherwise omitted. -/
def grand_average (snapshot : String → Option ℚ) (candidates : List String) :
    Option ℚ :=
  let present := candidates.filterMap snapshot
  if GRAND_QUORUM ≤ present.length then
    some (present.sum / present.length)
  else none

/-- The fixed candidate set for one asset: one key per source. -/
def BTC_CANDIDATES : List String :=
  ["binance_BTC", "coinbase_BTC_usd", "coinbase_BTC_usdt", "oracle_BTC"]

/-- A snapshot with three of the four candidates present, at 100, 110, 90. -/
def snapshot3of4 : String → Option ℚ := fun k =>
  if k = "binance_BTC" then some 100
  else if k = "coinbase_BTC_usd" then some 110
  else if k = "coinbase_BTC_usdt" then some 90
  else none

/-- A snapshot with only two of the four candidates present. -/
def snapshot2of4 : String → Option ℚ := fun k =>
  if k = "binance_BTC" then some 100
  else if k = "coinbase_BTC_usd" then some 110
  else none

/-- C8: a grand average is produced only when at least `GRAND_QUORUM = 3`
of the candidate keys are present in the snapshot; with exactly 2 of 4
candidates present none is produced; with exactly 3 present at values
100, 110, 90 it equals 100, the unweighted arithmetic mean. -/
theorem C8_grand_average_quorum (snapshot : String → Option ℚ)
    (candidates : List String) (q : ℚ)
    (hsome : grand_average snapshot candidates = some q) :
    GRAND_QUORUM ≤ (candidates.filterMap snapshot).length ∧
    (∀ (snap : String → Option ℚ) (cands : List String),
      cands.length = 4 → (cands.filterMap snap).length = 2 →
      grand_average snap cands = none) ∧
    grand_average snapshot2of4 BTC_CANDIDATES = none ∧
    grand_average snapshot3of4 BTC_CANDIDATES = some 100 := by
  refine ⟨?_, ?_, ?_, ?_⟩
  · by_cases hq : GRAND_QUORUM ≤ (candidates.filterMap snapshot).length
    · exact hq
    · exact absurd hsome (by unfold grand_average; dsimp only []; rw [if_neg hq]; simp)
  · intro snap cands hlen hpres
    unfold grand_average
    dsimp only []
    rw [hpres]
    rfl
  · rfl
  · show grand_average snapshot3of4 BTC_CANDIDATES = some 100
    unfold grand_average
    dsimp only []
    rw [show BTC_CANDIDATES.filterMap snapshot3of4 =
      [(100 : ℚ), 110, 90] from rfl]
    rw [if_pos (by decide)]
    norm_num

theorem C8_grand_average_quorum_witness :
    grand_average snapshot3of4 BTC_CANDIDATES = some 100 ∧
    GRAND_QUORUM ≤ (BTC_CANDIDATES.filterMap snapshot3of4).length ∧
    grand_average snapshot2of4 BTC_CANDIDATES = none := by
  have h100 : grand_average snapshot3of4 BTC_CANDIDATES = some 100 := by
    unfold grand_average
    dsimp only []
    rw [show BTC_CANDIDATES.filterMap snapshot3of4 =
      [(100 : ℚ), 110, 90] from rfl]
    rw [if_pos (by decide)]
    norm_num
  have h := C8_grand_average_quorum snapshot3of4 BTC_CANDIDATES 100 h100
  exact ⟨h100, h.1, h.2.2.1⟩
